import Mathlib

/-!
Verification of the vim-netranger plugin against its specification.
The embedded source files are src/pythonx/netranger/Vim.py,
src/pythonx/netranger/ui.py and src/test/test.py.  Components that live in
netranger.py (not part of the given sources) are modelled from the spec and
marked as such in their doc comments.
-/

namespace VimNetranger

/-- Association-list model of a Python dict: ordered key-value pairs with
unique keys.  Assignment keeps the position of an existing key and replaces
its value, otherwise it appends the new binding at the end. -/
def upsert {α β : Type} [DecidableEq α] : List (α × β) → α → β → List (α × β)
  | [], k, v => [(k, v)]
  | (k0, v0) :: rest, k, v =>
    if k0 = k then (k0, v) :: rest else (k0, v0) :: upsert rest k v

/-- Python dict lookup, returning the first (unique) binding of the key. -/
def alookup {α β : Type} [DecidableEq α] : List (α × β) → α → Option β
  | [], _ => none
  | (k0, v0) :: rest, k => if k0 = k then some v0 else alookup rest k

/-- Python del on a dict: remove the binding of the key. -/
def aerase {α β : Type} [DecidableEq α] : List (α × β) → α → List (α × β)
  | [], _ => []
  | (k0, v0) :: rest, k => if k0 = k then aerase rest k else (k0, v0) :: aerase rest k

/-- A stat record as used by ui.py: the fields of os.stat_result the sort
table reads.  Times are abstracted as integers. -/
structure Stat where
  st_atime : Int
  st_ctime : Int
  st_mtime : Int
deriving DecidableEq

/-- The filesystem facts about one path that SortUI.size (ui.py lines
152-160) consults: whether the path is a directory, the length of
os.listdir for directories, st_size for files, and whether accessing the
path raises PermissionError. -/
structure PathFS where
  isdir : Bool
  listdirLen : Nat
  statSize : Nat
  permissionDenied : Bool
deriving DecidableEq

/-- A node of the directory tree as consumed by the sort-key functions of
ui.py: a display name, the path (abstracted by the filesystem facts SortUI
needs) and an optional cached stat record. -/
structure FNode where
  name : List Char
  fullpath : PathFS
  stat : Option Stat
deriving DecidableEq

/-- A Python sort-key value produced by the SortUI key functions: either a
number (a stat time, or the integer -1) or a string. -/
inductive SKey where
  | num : Int → SKey
  | str : List Char → SKey
deriving DecidableEq

/-- Python str.rjust(w): left-pad with spaces up to width w. -/
def rjust (w : Nat) (s : List Char) : List Char :=
  List.replicate (w - s.length) ' ' ++ s

/-- Python str(n) for a natural number: its decimal digits. -/
def pyStr (n : Nat) : List Char := Nat.toDigits 10 n

/-- Embedding of SortUI.size (ui.py lines 152-160): for a directory return
str(len(os.listdir(path))).rjust(18), for a file return
str(os.stat(path).st_size).rjust(18); if a PermissionError is raised,
return the integer -1. -/
def SortUI_size (p : PathFS) : SKey :=
  if p.permissionDenied then SKey.num (-1)
  else if p.isdir then SKey.str (rjust 18 (pyStr p.listdirLen))
  else SKey.str (rjust 18 (pyStr p.statSize))

/-- Embedding of SortUI.ext_name (ui.py lines 162-168): the suffix after
the last dot of the name, or a single space when there is no dot. -/
def ext_name (path : List Char) : List Char :=
  if '.' ∈ path then (path.reverse.takeWhile (fun c => c ≠ '.')).reverse
  else [' ']

/-- Embedding of the SortUI.sort_fns table (ui.py lines 140-147).  Each
entry mirrors the corresponding Python lambda; in particular the entry for
the key m reads n.stat.st_ctime, exactly as the source does on line 145
(st_mtime exists on the stat record but is not read by any entry).
Lookup of a character outside the table yields none (Python KeyError). -/
def sort_fns (ch : Char) : Option (FNode → SKey) :=
  if ch = 'a' then some (fun n => match n.stat with
    | some st => SKey.num st.st_atime
    | none => SKey.num (-1))
  else if ch = 'c' then some (fun n => match n.stat with
    | some st => SKey.num st.st_ctime
    | none => SKey.num (-1))
  else if ch = 'd' then some (fun _ => SKey.str [])
  else if ch = 'e' then some (fun n => SKey.str (ext_name n.name))
  else if ch = 'm' then some (fun n => match n.stat with
    | some st => SKey.num st.st_ctime
    | none => SKey.num (-1))
  else if ch = 's' then some (fun n => SortUI_size n.fullpath)
  else none

/-- Lexicographic order on Python strings (by code point). -/
def strLtB : List Char → List Char → Bool
  | _, [] => false
  | [], _ :: _ => true
  | a :: as, b :: bs => if a < b then true else if b < a then false else strLtB as bs

/-- Python comparison key1 < key2 as used by sorted(): defined between two
numbers and between two strings; comparing a string with an integer raises
TypeError, modelled as none. -/
def pyLt : SKey → SKey → Option Bool
  | SKey.num a, SKey.num b => some (decide (a < b))
  | SKey.str a, SKey.str b => some (strLtB a b)
  | _, _ => none

/-- Exceptions relevant to the job machinery of Vim.py.  keyError is the
Python KeyError raised by a failed dict lookup; handlerError stands for an
exception raised inside a user-supplied callback; vimError is the
exception raised by vim.command when starting the background process
fails.  spawnError is the SpawnError named by the spec; the source never
defines or raises it, the constructor exists only so the spec claim can be
stated. -/
inductive Err where
  | keyError : Nat → Err
  | handlerError : Err
  | vimError : Err
  | spawnError : Err
deriving DecidableEq

/-- An output (stdout/stderr) handler: receives the job id and the data
chunk; it may raise, modelled by returning an error. -/
abbrev OutHandler : Type := Nat → List Char → Except Err Unit

/-- An exit handler: called with no arguments; it may raise. -/
abbrev ExitHandler : Type := Unit → Except Err Unit

/-- Embedding of do_nothing_with_args (Vim.py lines 98-99). -/
def do_nothing_with_args : OutHandler := fun _ _ => Except.ok ()

/-- Embedding of do_nothing (Vim.py lines 102-103). -/
def do_nothing : ExitHandler := fun _ => Except.ok ()

/-- The callback record AsyncRun stores in the registry under a job id: a
Python dict with exactly the keys stdout, stderr and exit (Vim.py lines
154-158). -/
structure CbkRecord where
  on_stdout : OutHandler
  on_stderr : OutHandler
  on_exit : ExitHandler

/-- The global callback registry _NETRcbks (Vim.py line 86): a dict from
job identity to callback record.  Job identities are naturals: under the
vim backend the identity is str(time.time()) and str is injective on
distinct clock readings, so readings are abstracted as naturals. -/
abbrev Registry : Type := List (Nat × CbkRecord)

/-- An event name passed to VimAsyncCallBack. -/
inductive Event where
  | stdout
  | stderr
  | exit
deriving DecidableEq

/-- Embedding of VimAsyncCallBack (Vim.py lines 89-95).  The function
first evaluates _NETRcbks at the job id (KeyError when absent, leaving the
registry unchanged).  For the exit event it calls the exit handler and
then deletes the registry entry; there is no try/finally, so when the
handler raises, the exception propagates and the del statement is never
reached, leaving the registry unchanged.  For stdout/stderr it calls the
output handler with the id and the data and never touches the registry.
The result is the propagated exception, if any, together with the registry
after the call. -/
def VimAsyncCallBack (r : Registry) (job_id : Nat) (event : Event)
    (data : List Char) : Option Err × Registry :=
  match alookup r job_id with
  | none => (some (Err.keyError job_id), r)
  | some cbks =>
    match event with
    | Event.exit =>
      match cbks.on_exit () with
      | Except.ok _ => (none, aerase r job_id)
      | Except.error e => (some e, r)
    | Event.stdout =>
      match cbks.on_stdout job_id data with
      | Except.ok _ => (none, r)
      | Except.error e => (some e, r)
    | Event.stderr =>
      match cbks.on_stderr job_id data with
      | Except.ok _ => (none, r)
      | Except.error e => (some e, r)

/-- The environment of one JobStart call under the vim backend (Vim.py
lines 124-141): the value of time.time() read at the top of the call, and
whether the vim.command that spawns the process raises. -/
structure StartEnv where
  clockReading : Nat
  cmdFails : Bool
deriving DecidableEq

/-- Embedding of the vim-backend JobStart (Vim.py lines 124-141): the
returned job identity is cur_time, the str(time.time()) reading taken at
call time; when the spawning vim.command raises, the exception propagates.
The spawned process and terminal window are external side effects and are
not modelled. -/
def JobStart (env : StartEnv) : Except Err Nat :=
  if env.cmdFails then Except.error Err.vimError else Except.ok env.clockReading

/-- Embedding of AsyncRun (Vim.py lines 144-158): fill in the missing
handlers with the do_nothing defaults, call JobStart, then store the
callback record in the registry under the returned identity (a dict
assignment, overwriting any record already stored under the same
identity).  When JobStart raises, the exception propagates and the
registration line is never reached.  The result is the propagated
exception, if any, together with the registry after the call. -/
def AsyncRun (r : Registry) (env : StartEnv) (on_stdout on_stderr : Option OutHandler)
    (on_exit : Option ExitHandler) : Option Err × Registry :=
  let osd := on_stdout.getD do_nothing_with_args
  let ose := on_stderr.getD do_nothing_with_args
  let oex := on_exit.getD do_nothing
  match JobStart env with
  | Except.error e => (some e, r)
  | Except.ok job_id => (none, upsert r job_id ⟨osd, ose, oex⟩)

/-- Dispatch a sequence of events for one job, threading the registry (the
exceptions, if any, propagate to the editor loop and do not affect later
deliveries). -/
def dispatchSeq (r : Registry) (job_id : Nat) (evs : List (Event × List Char)) : Registry :=
  evs.foldl (fun acc p => (VimAsyncCallBack acc job_id p.1 p.2).2) r

/-- Modelled from the spec: the events acting on the per-view
BufferOpCounter (the _num_fs_op counter of netranger.py, which is not
among the given sources; only the test harness touches it).  Each job
start increments the counter by one, each exit decrements it by one. -/
inductive FsOpEvent where
  | start
  | onExit
deriving DecidableEq

/-- Modelled from the spec: the BufferOpCounter value after a trace of
start/onExit events, starting from zero, incrementing on start and
decrementing on onExit. -/
def opCount (tr : List FsOpEvent) : Int :=
  tr.foldl (fun c e => match e with
    | FsOpEvent.start => c + 1
    | FsOpEvent.onExit => c - 1) 0

/-- Embedding of wait_for_fs_free (test.py lines 385-389): poll the
counter until a read returns zero.  The argument reads gives the sequence
of counter values the polls observe; fuel bounds the number of polls (the
Python loop would not terminate if the counter never reads zero, modelled
by the result none).  The result some i means the wait returned after
observing reads i. -/
def wait_for_fs_free (reads : Nat → Int) : Nat → Option Nat
  | 0 => none
  | fuel + 1 =>
    if reads 0 = 0 then some 0
    else (wait_for_fs_free (fun k => reads (k + 1)) fuel).map (· + 1)

/-- Modelled from the spec: the intent tag a node of a PendingSelection
carries (cut or copy); absence of a tag is modelled by Option below. -/
inductive Intent where
  | cut
  | copy
deriving DecidableEq

/-- Modelled from the spec: a PendingSelection is a mapping from node
references to intent tags; nodes are abstracted as naturals. -/
abbrev Selection : Type := Nat → Option Intent

/-- The empty selection: no node carries a tag. -/
def emptySel : Selection := fun _ => none

/-- Modelled from the spec: toggle(node, intent) clears the node's tag
when it is already set to that very intent, and otherwise sets the tag to
the supplied intent (overwriting any other tag). -/
def toggle (s : Selection) (n : Nat) (i : Intent) : Selection :=
  fun m => if m = n then (if s n = some i then none else some i) else s m

/-- Run a sequence of toggle calls with the cut intent, on the listed
nodes in order, starting from the empty selection. -/
def runToggles (tr : List Nat) : Selection :=
  tr.foldl (fun s n => toggle s n Intent.cut) emptySel

/-- Modelled from the spec: the error raised when the paste destination is
itself one of the selected source nodes. -/
inductive PasteError where
  | cyclicPasteError
deriving DecidableEq

/-- Modelled from the spec: the observable outcome of a paste call — the
error raised, if any, the background jobs launched (one per source leg,
recorded as a source/destination pair), and the tree state at return time
(the tree is only patched later, by the reconciler, when jobs complete). -/
structure PasteOutcome where
  err : Option PasteError
  jobsLaunched : List (List Char × List Char)
  treeAfter : List (List Char)
deriving DecidableEq

/-- Modelled from the spec: the paste operation over a materialized
selection.  When the destination directory is itself one of the selected
source paths, it fails with CyclicPasteError before any job is launched,
leaving the tree unchanged; otherwise it launches one background job per
source path. -/
def paste (sources : List (List Char)) (dest : List Char)
    (tree : List (List Char)) : PasteOutcome :=
  if dest ∈ sources then ⟨some PasteError.cyclicPasteError, [], tree⟩
  else ⟨none, sources.map (fun s => (s, dest)), tree⟩

/-- Python str.split with a separator character: splitting the empty
string gives one empty chunk, and each occurrence of the separator starts
a new chunk. -/
def pySplit (sep : Char) : List Char → List (List Char)
  | [] => [[]]
  | c :: cs =>
    match pySplit sep cs with
    | [] => [[c]]
    | t :: ts =>
      if c = sep then [] :: t :: ts
      else (c :: t) :: ts

/-- The characters Python str.strip removes, i.e. the full CPython
whitespace set: the ASCII whitespace characters U+0009 to U+000D and
U+0020, the separators U+001C to U+001F, the next line U+0085, the
no-break space U+00A0, the ogham space mark U+1680, the Unicode space
separators U+2000 to U+200A, the line separator U+2028, the paragraph
separator U+2029, the narrow no-break space U+202F, the medium
mathematical space U+205F and the ideographic space U+3000. -/
def pySpace (c : Char) : Bool :=
  decide (c = ' ' ∨ c = '\t' ∨ c = '\n' ∨ c = '\r' ∨ c = '\x0B' ∨ c = '\x0C' ∨
    c = Char.ofNat 28 ∨ c = Char.ofNat 29 ∨ c = Char.ofNat 30 ∨ c = Char.ofNat 31 ∨
    c = Char.ofNat 133 ∨ c = Char.ofNat 160 ∨ c = Char.ofNat 5760 ∨
    c = Char.ofNat 8192 ∨ c = Char.ofNat 8193 ∨ c = Char.ofNat 8194 ∨
    c = Char.ofNat 8195 ∨ c = Char.ofNat 8196 ∨ c = Char.ofNat 8197 ∨
    c = Char.ofNat 8198 ∨ c = Char.ofNat 8199 ∨ c = Char.ofNat 8200 ∨
    c = Char.ofNat 8201 ∨ c = Char.ofNat 8202 ∨ c = Char.ofNat 8232 ∨
    c = Char.ofNat 8233 ∨ c = Char.ofNat 8239 ∨ c = Char.ofNat 8287 ∨
    c = Char.ofNat 12288)

/-- Python str.strip(): drop the whitespace characters from both ends. -/
def strip (s : List Char) : List Char :=
  ((s.dropWhile pySpace).reverse.dropWhile pySpace).reverse

/-- The universal-newline translation Python applies when reading a text
file in the default mode: each CRLF pair and each lone CR becomes one LF
before the content is split into lines.  (On writing, the default mode
translates LF to os.linesep, which on the POSIX systems this plugin runs
on is LF again, so writes are untranslated.) -/
def univNewlines : List Char → List Char
  | [] => []
  | [c] => if c = '\r' then ['\n'] else [c]
  | c :: c2 :: rest =>
    if c = '\r' then
      if c2 = '\n' then '\n' :: univNewlines rest
      else '\n' :: univNewlines (c2 :: rest)
    else c :: univNewlines (c2 :: rest)

/-- The in-memory bookmark table mark_dict of BookMarkUI: a Python dict
from mark strings to path strings. -/
abbrev BmDict : Type := List (List Char × List Char)

/-- Embedding of the file write at the end of BookMarkUI._set (ui.py lines
266-268): the bookmark file is rewritten in full, one mark:path line per
entry of mark_dict, each terminated by a newline. -/
def save_bookmarks (d : BmDict) : List Char :=
  (d.map (fun kv => kv.1 ++ ':' :: kv.2 ++ ['\n'])).flatten

/-- Processing of one line by load_bookmarks: split on the colon; if the
split has exactly two parts, strip both and store them in mark_dict,
otherwise ignore the line. -/
def load_line (acc : BmDict) (line : List Char) : BmDict :=
  match pySplit ':' line with
  | [k, p] => upsert acc (strip k) (strip p)
  | _ => acc

/-- Embedding of BookMarkUI.load_bookmarks (ui.py lines 221-228): reset
mark_dict and process the file content line by line.  Reading applies the
universal-newline translation, then Python file iteration yields the
newline-terminated lines; splitting the translated content on the newline
character yields the same lines minus their terminators plus one final
empty chunk, and since strip discards the terminator and the empty chunk
never has exactly two colon-parts, the two readings load the same
table. -/
def load_bookmarks (content : List Char) : BmDict :=
  (pySplit '\n' (univNewlines content)).foldl load_line []

/-- Embedding of BookMarkUI._set (ui.py lines 241-268) restricted to its
bookkeeping: for a single-character mark, the guard mark not in valid_mark
amounts to the mark being an ASCII letter (valid_mark is the ASCII letters
and Char.isAlpha decides exactly that range); an invalid mark returns
without mutating anything.  A valid mark is assigned into mark_dict and
the bookmark file is rewritten in full from the updated table.  The
buffer-redraw part of the source touches only the editor display and is
not modelled. -/
def BookMarkUI_set (d : BmDict) (mark : Char) (path : List Char) :
    BmDict × Option (List Char) :=
  if mark.isAlpha then
    let d' := upsert d [mark] path
    (d', some (save_bookmarks d'))
  else (d, none)

/-- A string with no colon, no newline, no carriage return (which the
universal-newline translation would turn into a line break on reload) and
no surrounding Python whitespace: the bookmark lines such strings produce
survive the load parser unchanged. -/
abbrev goodStr (s : List Char) : Prop :=
  ':' ∉ s ∧ '\n' ∉ s ∧ '\r' ∉ s ∧ strip s = s

theorem opCount_aux (tr : List FsOpEvent) :
    ∀ c : Int,
      tr.foldl (fun c e => match e with
        | FsOpEvent.start => c + 1
        | FsOpEvent.onExit => c - 1) c
      = c + (tr.count FsOpEvent.start : Int) - (tr.count FsOpEvent.onExit : Int) := by
  induction tr with
  | nil => intro c; simp
  | cons e rest ih =>
    intro c
    cases e
    · simp only [List.foldl_cons]
      rw [ih (c + 1), List.count_cons_self, List.count_cons_of_ne (by decide) rest]
      push_cast
      ring
    · simp only [List.foldl_cons]
      rw [ih (c - 1), List.count_cons_self, List.count_cons_of_ne (by decide) rest]
      push_cast
      ring

theorem opCount_count (tr : List FsOpEvent) :
    opCount tr = (tr.count FsOpEvent.start : Int) - (tr.count FsOpEvent.onExit : Int) := by
  have h := opCount_aux tr 0
  simpa [opCount] using h

theorem wait_reads_zero :
    ∀ (fuel : Nat) (reads : Nat → Int) (i : Nat),
      wait_for_fs_free reads fuel = some i → reads i = 0 := by
  intro fuel
  induction fuel with
  | zero =>
    intro reads i h
    exact Option.noConfusion ((rfl : wait_for_fs_free reads 0 = none).symm.trans h)
  | succ f ih =>
    intro reads i h
    have heq : wait_for_fs_free reads (f + 1)
        = (if reads 0 = 0 then some 0
           else (wait_for_fs_free (fun k => reads (k + 1)) f).map (· + 1)) := rfl
    rw [heq] at h
    by_cases h0 : reads 0 = 0
    · rw [if_pos h0] at h
      injection h with h1
      rw [← h1]
      exact h0
    · rw [if_neg h0] at h
      rw [Option.map_eq_some'] at h
      obtain ⟨j, hj, hji⟩ := h
      have hz := ih (fun k => reads (k + 1)) j hj
      rw [← hji]
      exact hz

/-- C5: under every interleaving of paired start/onExit events (each exit
matched by an earlier start, so every prefix has at least as many starts
as exits), the BufferOpCounter value is never negative at any prefix, and
wait_for_fs_free returns only at a poll that reads exactly zero. -/
theorem C5_theorem (tr : List FsOpEvent)
    (hp : ∀ k, k ≤ tr.length →
      (tr.take k).count FsOpEvent.onExit ≤ (tr.take k).count FsOpEvent.start)
    (reads : Nat → Int) (fuel i : Nat)
    (hw : wait_for_fs_free reads fuel = some i) :
    (∀ k, 0 ≤ opCount (tr.take k)) ∧ reads i = 0 := by
  constructor
  · intro k
    rcases le_or_lt k tr.length with hk | hk
    · have h := hp k hk
      rw [opCount_count]
      omega
    · have htk : tr.take k = tr := List.take_of_length_le (le_of_lt hk)
      have h := hp tr.length le_rfl
      rw [List.take_length] at h
      rw [htk, opCount_count]
      omega
  · exact wait_reads_zero fuel reads i hw

/-- C5 witness: the theorem applied to the concrete trace consisting of
one start followed by one exit, and a poll sequence that reads zero on its
second observation. -/
theorem C5_witness :
    (fun k => if k < 1 then (1 : Int) else 0) 1 = 0 :=
  (C5_theorem [FsOpEvent.start, FsOpEvent.onExit] (by decide)
    (fun k => if k < 1 then (1 : Int) else 0) 5 1 (by decide)).2

/-- C7: when the paste destination directory is itself one of the selected
source paths, the paste fails with CyclicPasteError, launches zero jobs
and leaves the tree unchanged. -/
theorem C7_theorem (sources : List (List Char)) (dest : List Char)
    (tree : List (List Char)) (h : dest ∈ sources) :
    paste sources dest tree = ⟨some PasteError.cyclicPasteError, [], tree⟩ := by
  simp [paste, h]

/-- C7 witness: the theorem applied to a selection containing the
destination itself. -/
theorem C7_witness :
    paste [['a']] ['a'] [['a'], ['b']]
      = ⟨some PasteError.cyclicPasteError, [], [['a'], ['b']]⟩ :=
  C7_theorem [['a']] ['a'] [['a'], ['b']] (by decide)

/-- C3 counterexample: when JobStart raises, AsyncRun fails with the very
exception vim.command raised, not with a SpawnError (the source defines no
SpawnError anywhere), refuting the claim that the call fails with a
SpawnError.  The registry is left unchanged. -/
theorem C3_counterexample :
    (AsyncRun [] ⟨0, true⟩ none none none).1 = some Err.vimError ∧
    Err.vimError ≠ Err.spawnError ∧
    (AsyncRun [] ⟨0, true⟩ none none none).2 = [] :=
  ⟨rfl, by decide, rfl⟩

/-- C3 amended: if starting the background process fails (JobStart
raises), AsyncRun propagates that same exception — the code defines no
SpawnError — and the registry is left unchanged: no job entry is created
for the failed start. -/
theorem C3_theorem (r : Registry) (t : Nat) (s e : Option OutHandler)
    (x : Option ExitHandler) :
    AsyncRun r ⟨t, true⟩ s e x = (some Err.vimError, r) := by
  simp [AsyncRun, JobStart]

/-- C9: for every node whose stat record is present, the sort-key function
the table selects for the m (mtime) option returns the stat record's
st_ctime, and is pointwise equal to the key function of the c (ctime)
option; it never reads st_mtime. -/
theorem C9_theorem (n : FNode) (st : Stat) (h : n.stat = some st) :
    ∃ f g, sort_fns 'm' = some f ∧ sort_fns 'c' = some g ∧
      f n = SKey.num st.st_ctime ∧ f n = g n := by
  refine ⟨_, _, rfl, rfl, ?_, ?_⟩ <;> simp [h]

/-- C9 witness: the theorem applied to a concrete node whose atime, ctime
and mtime are pairwise distinct; the m key function yields the ctime. -/
theorem C9_witness :
    ∃ f g, sort_fns 'm' = some f ∧ sort_fns 'c' = some g ∧
      f ⟨[], ⟨false, 0, 0, false⟩, some ⟨1, 2, 3⟩⟩ = SKey.num 2 ∧
      f ⟨[], ⟨false, 0, 0, false⟩, some ⟨1, 2, 3⟩⟩
        = g ⟨[], ⟨false, 0, 0, false⟩, some ⟨1, 2, 3⟩⟩ :=
  C9_theorem ⟨[], ⟨false, 0, 0, false⟩, some ⟨1, 2, 3⟩⟩ ⟨1, 2, 3⟩ rfl

/-- C10: SortUI.size returns a right-justified decimal string for every
path it can stat or list, and the integer -1 for a permission-denied path;
comparing the key of an accessible entry with the key of a denied entry,
in either order, is a string-integer comparison, which Python's sorted
rejects with a TypeError — so sorting such a mixed list is not well
defined. -/
theorem C10_theorem (p q : PathFS) (hp : p.permissionDenied = false)
    (hq : q.permissionDenied = true) :
    SortUI_size p
      = SKey.str (rjust 18 (pyStr (if p.isdir then p.listdirLen else p.statSize))) ∧
    SortUI_size q = SKey.num (-1) ∧
    pyLt (SortUI_size p) (SortUI_size q) = none ∧
    pyLt (SortUI_size q) (SortUI_size p) = none := by
  refine ⟨?_, by simp [SortUI_size, hq], ?_, ?_⟩ <;>
    cases hd : p.isdir <;> simp [SortUI_size, pyLt, hp, hq, hd]

/-- C10 witness: a readable directory with three entries against a
permission-denied path; the two keys do not compare. -/
theorem C10_witness :
    pyLt (SortUI_size ⟨true, 3, 0, false⟩) (SortUI_size ⟨false, 0, 0, true⟩) = none :=
  (C10_theorem ⟨true, 3, 0, false⟩ ⟨false, 0, 0, true⟩ rfl rfl).2.2.1

theorem alookup_aerase {α β : Type} [DecidableEq α] (l : List (α × β)) (k : α) :
    alookup (aerase l k) k = none := by
  induction l with
  | nil => rfl
  | cons kv rest ih =>
    obtain ⟨k0, v0⟩ := kv
    by_cases h : k0 = k <;> simp [aerase, alookup, h, ih]

theorem out_keeps (r : Registry) (job_id : Nat) (ev : Event) (data : List Char)
    (hev : ev ≠ Event.exit) : (VimAsyncCallBack r job_id ev data).2 = r := by
  cases halo : alookup r job_id with
  | none => simp [VimAsyncCallBack, halo]
  | some cbks =>
    cases ev with
    | exit => exact absurd rfl hev
    | stdout =>
      cases hs : cbks.on_stdout job_id data <;> simp [VimAsyncCallBack, halo, hs]
    | stderr =>
      cases hs : cbks.on_stderr job_id data <;> simp [VimAsyncCallBack, halo, hs]

theorem dispatchSeq_keeps (job_id : Nat) (outs : List (Event × List Char)) :
    ∀ r : Registry, (∀ p ∈ outs, p.1 ≠ Event.exit) → dispatchSeq r job_id outs = r := by
  induction outs with
  | nil => intro r _; rfl
  | cons p rest ih =>
    intro r h
    have h1 : p.1 ≠ Event.exit := h p (List.mem_cons_self p rest)
    have hstep : (VimAsyncCallBack r job_id p.1 p.2).2 = r :=
      out_keeps r job_id p.1 p.2 h1
    calc dispatchSeq r job_id (p :: rest)
        = dispatchSeq (VimAsyncCallBack r job_id p.1 p.2).2 job_id rest := rfl
      _ = dispatchSeq r job_id rest := by rw [hstep]
      _ = r := ih r (fun q hq => h q (List.mem_cons_of_mem p hq))

/-- C1 counterexample: a job whose exit handler raises.  Dispatching the
exit event propagates the handler's exception and the callback record is
NOT removed from the registry — the del statement follows the handler call
with no try/finally — refuting the part of the claim that the removal
happens even if the exit handler itself raises. -/
theorem C1_counterexample :
    (VimAsyncCallBack [(1, ⟨do_nothing_with_args, do_nothing_with_args,
        fun _ => Except.error Err.handlerError⟩)] 1 Event.exit []).1
      = some Err.handlerError ∧
    alookup (VimAsyncCallBack [(1, ⟨do_nothing_with_args, do_nothing_with_args,
        fun _ => Except.error Err.handlerError⟩)] 1 Event.exit []).2 1
      = some ⟨do_nothing_with_args, do_nothing_with_args,
          fun _ => Except.error Err.handlerError⟩ :=
  ⟨rfl, rfl⟩

/-- C1 amended: for a registered job, any number of stdout/stderr events
leaves the callback record in place; dispatching exit after them removes
the record exactly once provided the exit handler returns normally (the
registry afterwards has no entry for the job); but if the exit handler
raises, the exception propagates and the record is NOT removed — the
registry is exactly what it was before the exit event. -/
theorem C1_theorem (r : Registry) (job_id : Nat) (rec : CbkRecord)
    (outs : List (Event × List Char)) (houts : ∀ p ∈ outs, p.1 ≠ Event.exit)
    (hlook : alookup r job_id = some rec) :
    alookup (dispatchSeq r job_id outs) job_id = some rec ∧
    (rec.on_exit () = Except.ok () →
      (VimAsyncCallBack (dispatchSeq r job_id outs) job_id Event.exit []).2
        = aerase r job_id ∧
      alookup (aerase r job_id) job_id = none) ∧
    (∀ e, rec.on_exit () = Except.error e →
      (VimAsyncCallBack (dispatchSeq r job_id outs) job_id Event.exit []).1 = some e ∧
      (VimAsyncCallBack (dispatchSeq r job_id outs) job_id Event.exit []).2 = r) := by
  have hds : dispatchSeq r job_id outs = r := dispatchSeq_keeps job_id outs r houts
  rw [hds]
  refine ⟨hlook, fun hok => ⟨?_, alookup_aerase r job_id⟩, fun e herr => ⟨?_, ?_⟩⟩
  · simp [VimAsyncCallBack, hlook, hok]
  · simp [VimAsyncCallBack, hlook, herr]
  · simp [VimAsyncCallBack, hlook, herr]

/-- C1 witness: a job with the default exit handler, preceded by one
stdout event; the record survives the output event. -/
theorem C1_witness :
    alookup (dispatchSeq [(1, ⟨do_nothing_with_args, do_nothing_with_args,
        do_nothing⟩)] 1 [(Event.stdout, [])]) 1
      = some ⟨do_nothing_with_args, do_nothing_with_args, do_nothing⟩ :=
  (C1_theorem [(1, ⟨do_nothing_with_args, do_nothing_with_args, do_nothing⟩)] 1
    ⟨do_nothing_with_args, do_nothing_with_args, do_nothing⟩
    [(Event.stdout, [])] (by decide) rfl).1

/-- C2 counterexample: under the vim backend the job identity is the
str(time.time()) reading, and time.time() can return the same value for
two consecutive calls.  With equal clock readings, two jobs started while
both run receive the SAME identity, and the second AsyncRun registration
overwrites the first job's callback record: afterwards the registry routes
the first job's exit to the second job's raising handler, while the first
job's handler (which returns normally) is gone. -/
theorem C2_counterexample :
    JobStart ⟨5, false⟩ = JobStart ⟨5, false⟩ ∧
    ((alookup (AsyncRun (AsyncRun [] ⟨5, false⟩ none none (some do_nothing)).2
        ⟨5, false⟩ none none (some (fun _ => Except.error Err.handlerError))).2 5).map
      (fun c => c.on_exit ())) = some (Except.error Err.handlerError) ∧
    (Except.error Err.handlerError : Except Err Unit) ≠ do_nothing () :=
  ⟨rfl, rfl, fun h => Except.noConfusion h⟩

/-- C2 amended: the vim-backend JobStart returns the clock reading taken
at the call, so two jobs get distinct identities exactly when the readings
at their two start calls differ; under that assumption, registering the
second job's callback record leaves the first job's record intact and both
are retrievable. -/
theorem C2_theorem (t1 t2 : Nat) (h : t1 ≠ t2)
    (s1 e1 : OutHandler) (x1 : ExitHandler) (s2 e2 : OutHandler) (x2 : ExitHandler) :
    JobStart ⟨t1, false⟩ ≠ JobStart ⟨t2, false⟩ ∧
    alookup (AsyncRun (AsyncRun [] ⟨t1, false⟩ (some s1) (some e1) (some x1)).2
       ⟨t2, false⟩ (some s2) (some e2) (some x2)).2 t1 = some ⟨s1, e1, x1⟩ ∧
    alookup (AsyncRun (AsyncRun [] ⟨t1, false⟩ (some s1) (some e1) (some x1)).2
       ⟨t2, false⟩ (some s2) (some e2) (some x2)).2 t2 = some ⟨s2, e2, x2⟩ := by
  refine ⟨?_, ?_, ?_⟩
  · simp [JobStart, h]
  · simp [AsyncRun, JobStart, upsert, alookup, h]
  · simp [AsyncRun, JobStart, upsert, alookup, h]

/-- C2 witness: two starts at distinct clock readings; the first job's
record is still registered under its own identity after the second
registration. -/
theorem C2_witness :
    alookup (AsyncRun (AsyncRun [] ⟨0, false⟩ (some do_nothing_with_args)
        (some do_nothing_with_args) (some do_nothing)).2
      ⟨1, false⟩ (some do_nothing_with_args) (some do_nothing_with_args)
        (some do_nothing)).2 0
      = some ⟨do_nothing_with_args, do_nothing_with_args, do_nothing⟩ :=
  (C2_theorem 0 1 (by decide) do_nothing_with_args do_nothing_with_args do_nothing
    do_nothing_with_args do_nothing_with_args do_nothing).2.1

/-- C8: dispatching any event for a job identity absent from the registry
— in particular a second exit for a job whose exit was already processed,
or an output event arriving after the exit was processed — raises KeyError
and leaves the registry unchanged, rather than being discarded silently;
while an exit for a live job with no prior output events is handled
without error and removes the record. -/
theorem C8_theorem (r : Registry) (job_id : Nat) :
    (∀ ev data, alookup r job_id = none →
       VimAsyncCallBack r job_id ev data = (some (Err.keyError job_id), r)) ∧
    (∀ rec, alookup r job_id = some rec → rec.on_exit () = Except.ok () →
       (VimAsyncCallBack r job_id Event.exit []).1 = none ∧
       (VimAsyncCallBack r job_id Event.exit []).2 = aerase r job_id ∧
       (∀ ev data, VimAsyncCallBack (aerase r job_id) job_id ev data
          = (some (Err.keyError job_id), aerase r job_id))) := by
  constructor
  · intro ev data hnone
    simp [VimAsyncCallBack, hnone]
  · intro rec hl hx
    refine ⟨?_, ?_, ?_⟩
    · simp [VimAsyncCallBack, hl, hx]
    · simp [VimAsyncCallBack, hl, hx]
    · intro ev data
      simp [VimAsyncCallBack, alookup_aerase r job_id]

/-- C8 witness: a freshly registered job; its first exit is handled
without error. -/
theorem C8_witness :
    (VimAsyncCallBack [(1, ⟨do_nothing_with_args, do_nothing_with_args,
        do_nothing⟩)] 1 Event.exit []).1 = none :=
  ((C8_theorem [(1, ⟨do_nothing_with_args, do_nothing_with_args, do_nothing⟩)] 1).2
    ⟨do_nothing_with_args, do_nothing_with_args, do_nothing⟩ rfl rfl).1

theorem toggleCut_aux (tr : List Nat) :
    ∀ (s : Selection) (n : Nat),
      s n = none ∨ s n = some Intent.cut →
      tr.foldl (fun s' m => toggle s' m Intent.cut) s n =
        if (tr.count n + (if s n = some Intent.cut then 1 else 0)) % 2 = 1
        then some Intent.cut else none := by
  induction tr with
  | nil =>
    intro s n hs
    rcases hs with hs | hs <;> simp [hs]
  | cons a tr ih =>
    intro s n hs
    simp only [List.foldl_cons]
    have hinv : toggle s a Intent.cut n = none ∨ toggle s a Intent.cut n = some Intent.cut := by
      unfold toggle
      by_cases han : n = a
      · subst han
        simp only [if_pos rfl]
        by_cases hc : s n = some Intent.cut <;> simp [hc]
      · simp only [if_neg han]
        exact hs
    rw [ih (toggle s a Intent.cut) n hinv]
    have key : (tr.count n + (if toggle s a Intent.cut n = some Intent.cut then 1 else 0)) % 2
        = ((a :: tr).count n + (if s n = some Intent.cut then 1 else 0)) % 2 := by
      by_cases han : n = a
      · subst han
        rcases hs with hs | hs
        · have ht : toggle s n Intent.cut n = some Intent.cut := by simp [toggle, hs]
          rw [List.count_cons_self, ht, hs]
          simp
        · have ht : toggle s n Intent.cut n = none := by simp [toggle, hs]
          rw [List.count_cons_self, ht, hs]
          simp
          omega
      · have ht : toggle s a Intent.cut n = s n := by simp [toggle, han]
        rw [List.count_cons_of_ne han tr, ht]
    rw [key]

/-- C6: starting from the empty selection, after any finite sequence of
toggle(node, cut) calls each node's tag is cut exactly when that node was
toggled an odd number of times, and in every intermediate state no node
carries both a cut tag and a copy tag (the tag mapping assigns at most one
intent per node). -/
theorem C6_theorem (tr : List Nat) (n : Nat) :
    (runToggles tr n = some Intent.cut ↔ tr.count n % 2 = 1) ∧
    (∀ k m, ¬(runToggles (tr.take k) m = some Intent.cut ∧
              runToggles (tr.take k) m = some Intent.copy)) := by
  constructor
  · have h := toggleCut_aux tr emptySel n (Or.inl rfl)
    rw [runToggles, h]
    have he : emptySel n = none := rfl
    rw [he]
    simp only [reduceCtorEq, if_neg, Nat.add_zero]
    by_cases hc : tr.count n % 2 = 1 <;> simp [hc]
  · intro k m hcon
    obtain ⟨h1, h2⟩ := hcon
    rw [h1] at h2
    simp at h2

/-- C6 witness: toggling one node three times leaves it tagged cut. -/
theorem C6_witness : runToggles [7, 7, 7] 7 = some Intent.cut :=
  ((C6_theorem [7, 7, 7] 7).1).mpr (by decide)

theorem pySplit_ne_nil (sep : Char) (l : List Char) : pySplit sep l ≠ [] := by
  cases l with
  | nil => simp [pySplit]
  | cons c cs =>
    simp only [pySplit]
    cases h : pySplit sep cs with
    | nil => simp
    | cons t ts => by_cases hc : c = sep <;> simp [hc]

theorem pySplit_no_sep (sep : Char) (l : List Char) (h : sep ∉ l) :
    pySplit sep l = [l] := by
  induction l with
  | nil => rfl
  | cons c cs ih =>
    have hc : c ≠ sep := by
      intro e
      exact h (by rw [← e]; exact List.mem_cons_self c cs)
    have hcs : sep ∉ cs := fun hm => h (List.mem_cons_of_mem c hm)
    simp only [pySplit, ih hcs]
    simp [hc]

theorem pySplit_append (sep : Char) (l r : List Char) (h : sep ∉ l) :
    pySplit sep (l ++ sep :: r) = l :: pySplit sep r := by
  induction l with
  | nil =>
    simp only [List.nil_append, pySplit]
    cases hr : pySplit sep r with
    | nil => exact absurd hr (pySplit_ne_nil sep r)
    | cons t ts => simp
  | cons c cs ih =>
    have hc : c ≠ sep := by
      intro e
      exact h (by rw [← e]; exact List.mem_cons_self c cs)
    have hcs : sep ∉ cs := fun hm => h (List.mem_cons_of_mem c hm)
    simp only [List.cons_append, pySplit, List.append_eq]
    rw [ih hcs]
    simp [hc]

theorem alpha_not_colon (c : Char) (h : c.isAlpha = true) : c ≠ ':' :=
  fun e => absurd (e ▸ h) (by decide)

theorem alpha_not_nl (c : Char) (h : c.isAlpha = true) : c ≠ '\n' :=
  fun e => absurd (e ▸ h) (by decide)

theorem alpha_not_cr (c : Char) (h : c.isAlpha = true) : c ≠ '\r' :=
  fun e => absurd (e ▸ h) (by decide)

theorem alpha_not_space (c : Char) (h : c.isAlpha = true) : pySpace c = false := by
  by_contra hp
  have hp2 : pySpace c = true := by
    cases hps : pySpace c
    · exact absurd hps hp
    · rfl
  have hd := of_decide_eq_true hp2
  rcases hd with e | e | e | e | e | e | e | e | e | e | e | e | e | e | e |
    e | e | e | e | e | e | e | e | e | e | e | e | e | e <;>
    subst e <;> exact absurd h (by decide)

theorem univNewlines_id : ∀ l : List Char, '\r' ∉ l → univNewlines l = l
  | [], _ => rfl
  | [c], h => by
    have hc : c ≠ '\r' := fun e => h (by rw [← e]; exact List.mem_cons_self c [])
    simp [univNewlines, hc]
  | c :: c2 :: rest, h => by
    have hc : c ≠ '\r' := fun e =>
      h (by rw [← e]; exact List.mem_cons_self c (c2 :: rest))
    have h2 : '\r' ∉ c2 :: rest := fun hm => h (List.mem_cons_of_mem c hm)
    simp [univNewlines, hc, univNewlines_id (c2 :: rest) h2]

theorem no_cr_save (d : BmDict)
    (hclean : ∀ kv ∈ d, goodStr kv.1 ∧ goodStr kv.2) :
    '\r' ∉ save_bookmarks d := by
  induction d with
  | nil => simp [save_bookmarks]
  | cons kv rest ih =>
    obtain ⟨k, p⟩ := kv
    have hgk : goodStr k := (hclean (k, p) (List.mem_cons_self _ _)).1
    have hgp : goodStr p := (hclean (k, p) (List.mem_cons_self _ _)).2
    intro hm
    have hm2 : '\r' ∈ (k ++ ':' :: p ++ ['\n']) ++ save_bookmarks rest := by
      simpa [save_bookmarks] using hm
    rcases List.mem_append.mp hm2 with hline | hrest
    · rcases List.mem_append.mp hline with hk2 | hnl
      · rcases List.mem_append.mp hk2 with hk | hcp
        · exact hgk.2.2.1 hk
        · rcases List.mem_cons.mp hcp with he | hp3
          · exact absurd he (by decide)
          · exact hgp.2.2.1 hp3
      · rcases List.mem_cons.mp hnl with he2 | hf
        · exact absurd he2 (by decide)
        · cases hf
    · exact ih (fun kv hkv => hclean kv (List.mem_cons_of_mem _ hkv)) hrest

theorem strip_single (c : Char) (h : pySpace c = false) : strip [c] = [c] := by
  simp [strip, List.dropWhile, h]

theorem upsert_keys {α β : Type} [DecidableEq α] (l : List (α × β)) (k : α) (v : β) :
    (upsert l k v).map Prod.fst
      = if k ∈ l.map Prod.fst then l.map Prod.fst else l.map Prod.fst ++ [k] := by
  induction l with
  | nil => simp [upsert]
  | cons kv rest ih =>
    obtain ⟨k0, v0⟩ := kv
    by_cases h0 : k0 = k
    · subst h0
      simp [upsert]
    · have hne : ¬(k = k0) := fun e => h0 e.symm
      by_cases hm : k ∈ rest.map Prod.fst <;>
        simp [upsert, h0, ih, hm, hne]

theorem upsert_nodup {α β : Type} [DecidableEq α] (l : List (α × β)) (k : α) (v : β)
    (h : (l.map Prod.fst).Nodup) : ((upsert l k v).map Prod.fst).Nodup := by
  rw [upsert_keys]
  by_cases hm : k ∈ l.map Prod.fst
  · simpa [hm]
  · simp only [hm, if_false]
    simp [List.nodup_append, h, hm]

theorem mem_upsert {α β : Type} [DecidableEq α] (l : List (α × β)) (k : α) (v : β)
    (kv : α × β) (h : kv ∈ upsert l k v) : kv ∈ l ∨ kv = (k, v) := by
  induction l with
  | nil =>
    simp [upsert] at h
    exact Or.inr h
  | cons kv0 rest ih =>
    obtain ⟨k0, v0⟩ := kv0
    by_cases h0 : k0 = k
    · subst h0
      simp only [upsert, if_pos rfl] at h
      rcases List.mem_cons.mp h with he | hr
      · exact Or.inr he
      · exact Or.inl (List.mem_cons_of_mem _ hr)
    · simp only [upsert, if_neg h0] at h
      rcases List.mem_cons.mp h with he | hr
      · exact Or.inl (he ▸ List.mem_cons_self _ _)
      · rcases ih hr with hin | heq
        · exact Or.inl (List.mem_cons_of_mem _ hin)
        · exact Or.inr heq

theorem upsert_append {α β : Type} [DecidableEq α] (l : List (α × β)) (k : α) (v : β)
    (h : k ∉ l.map Prod.fst) : upsert l k v = l ++ [(k, v)] := by
  induction l with
  | nil => rfl
  | cons kv rest ih =>
    obtain ⟨k0, v0⟩ := kv
    simp only [List.map_cons, List.mem_cons] at h
    push_neg at h
    obtain ⟨h1, h2⟩ := h
    have h0 : ¬(k0 = k) := fun e => h1 e.symm
    simp [upsert, h0, ih h2]

theorem load_lines_acc (d : BmDict) :
    ∀ acc : BmDict,
      (∀ kv ∈ d, goodStr kv.1 ∧ goodStr kv.2) →
      ((d.map Prod.fst).Nodup) →
      (∀ kv ∈ d, kv.1 ∉ acc.map Prod.fst) →
      (d.map (fun kv => kv.1 ++ ':' :: kv.2)).foldl load_line acc = acc ++ d := by
  induction d with
  | nil => intro acc _ _ _; simp
  | cons kv rest ih =>
    obtain ⟨k, p⟩ := kv
    intro acc hclean hnd hdisj
    have hgk : goodStr k := (hclean (k, p) (List.mem_cons_self _ _)).1
    have hgp : goodStr p := (hclean (k, p) (List.mem_cons_self _ _)).2
    have hline : load_line acc (k ++ ':' :: p) = acc ++ [(k, p)] := by
      unfold load_line
      rw [pySplit_append ':' k p hgk.1, pySplit_no_sep ':' p hgp.1]
      simp only [hgk.2.2.2, hgp.2.2.2]
      exact upsert_append acc k p (hdisj (k, p) (List.mem_cons_self _ _))
    simp only [List.map_cons, List.foldl_cons, hline]
    have hknr : k ∉ rest.map Prod.fst := by
      have := hnd
      simp only [List.map_cons, List.nodup_cons] at this
      exact this.1
    rw [ih (acc ++ [(k, p)])
      (fun kv hkv => hclean kv (List.mem_cons_of_mem _ hkv))
      (by simp only [List.map_cons, List.nodup_cons] at hnd; exact hnd.2)
      ?_]
    · simp
    · intro kv hkv
      simp only [List.map_append, List.mem_append, List.map_cons, List.map_nil,
        List.mem_singleton]
      push_neg
      refine ⟨hdisj kv (List.mem_cons_of_mem _ hkv), ?_⟩
      intro e
      exact hknr (e ▸ List.mem_map_of_mem Prod.fst hkv)

theorem split_save (d : BmDict)
    (hclean : ∀ kv ∈ d, goodStr kv.1 ∧ goodStr kv.2) :
    pySplit '\n' (save_bookmarks d)
      = d.map (fun kv => kv.1 ++ ':' :: kv.2) ++ [[]] := by
  induction d with
  | nil => simp [save_bookmarks, pySplit]
  | cons kv rest ih =>
    obtain ⟨k, p⟩ := kv
    have hgk : goodStr k := (hclean (k, p) (List.mem_cons_self _ _)).1
    have hgp : goodStr p := (hclean (k, p) (List.mem_cons_self _ _)).2
    have hnl : '\n' ∉ k ++ ':' :: p := by
      intro hm
      rcases List.mem_append.mp hm with hk | hcp
      · exact hgk.2.1 hk
      · rcases List.mem_cons.mp hcp with he | hp2
        · exact absurd he (by decide)
        · exact hgp.2.1 hp2
    have ha : save_bookmarks ((k, p) :: rest)
        = (k ++ ':' :: p) ++ '\n' :: save_bookmarks rest := by
      simp [save_bookmarks, List.append_assoc]
    rw [ha, pySplit_append '\n' (k ++ ':' :: p) (save_bookmarks rest) hnl,
      ih (fun kv hkv => hclean kv (List.mem_cons_of_mem _ hkv))]
    simp

theorem load_save (d : BmDict)
    (hclean : ∀ kv ∈ d, goodStr kv.1 ∧ goodStr kv.2)
    (hnd : (d.map Prod.fst).Nodup) :
    load_bookmarks (save_bookmarks d) = d := by
  unfold load_bookmarks
  rw [univNewlines_id (save_bookmarks d) (no_cr_save d hclean),
    split_save d hclean, List.foldl_append,
    load_lines_acc d [] hclean hnd (by simp)]
  simp [load_line, pySplit]

/-- C4 counterexample: setting the valid mark m to the path /a:b (a legal
filename containing a colon) rewrites the file as one mark:path line, but
load_bookmarks splits that line at every colon, obtains three parts, and
skips it — the reloaded table is empty, not the in-memory table, refuting
the unconditional save/load round-trip. -/
theorem C4_counterexample :
    (BookMarkUI_set [] 'm' ['/', 'a', ':', 'b']).1 = [(['m'], ['/', 'a', ':', 'b'])] ∧
    (BookMarkUI_set [] 'm' ['/', 'a', ':', 'b']).2
      = some (save_bookmarks [(['m'], ['/', 'a', ':', 'b'])]) ∧
    load_bookmarks (save_bookmarks [(['m'], ['/', 'a', ':', 'b'])]) = [] :=
  ⟨rfl, rfl, by decide⟩

/-- C4 amended: for every mutation via BookMarkUI._set with a valid
single-character mark, the bookmark file is rewritten in full as one
mark:path line per entry of the in-memory table; and provided every stored
path (and every stored mark) contains no colon, no newline and no carriage
return, and carries no leading or trailing Python whitespace (the full
character set str.strip removes), load_bookmarks applied to the written
file reconstructs exactly the same table.  Without that proviso entries
are dropped (embedded colon, or a newline or carriage return that the
universal-newline reader turns into a line break) or altered (surrounding
whitespace stripped) on reload. -/
theorem C4_theorem (d : BmDict) (mark : Char) (path : List Char)
    (hm : mark.isAlpha = true)
    (hclean : ∀ kv ∈ d, goodStr kv.1 ∧ goodStr kv.2)
    (hnd : (d.map Prod.fst).Nodup)
    (hpath : goodStr path) :
    (BookMarkUI_set d mark path).2
      = some (save_bookmarks ((BookMarkUI_set d mark path).1)) ∧
    load_bookmarks (save_bookmarks ((BookMarkUI_set d mark path).1))
      = (BookMarkUI_set d mark path).1 := by
  have hset1 : (BookMarkUI_set d mark path).1 = upsert d [mark] path := by
    simp [BookMarkUI_set, hm]
  have hset2 : (BookMarkUI_set d mark path).2
      = some (save_bookmarks (upsert d [mark] path)) := by
    simp [BookMarkUI_set, hm]
  constructor
  · rw [hset1, hset2]
  · rw [hset1]
    apply load_save
    · intro kv hkv
      rcases mem_upsert d [mark] path kv hkv with hin | heq
      · exact hclean kv hin
      · subst heq
        refine ⟨⟨?_, ?_, ?_, strip_single mark (alpha_not_space mark hm)⟩, hpath⟩
        · intro hmem
          rcases List.mem_cons.mp hmem with he | hf
          · exact alpha_not_colon mark hm he.symm
          · cases hf
        · intro hmem
          rcases List.mem_cons.mp hmem with he | hf
          · exact alpha_not_nl mark hm he.symm
          · cases hf
        · intro hmem
          rcases List.mem_cons.mp hmem with he | hf
          · exact alpha_not_cr mark hm he.symm
          · cases hf
    · exact upsert_nodup d [mark] path hnd

/-- C4 witness: the amended round-trip at the empty table, the mark m and
the clean path /ab. -/
theorem C4_witness :
    load_bookmarks (save_bookmarks ((BookMarkUI_set [] 'm' ['/', 'a', 'b']).1))
      = (BookMarkUI_set [] 'm' ['/', 'a', 'b']).1 :=
  (C4_theorem [] 'm' ['/', 'a', 'b'] (by decide) (by decide) (by decide)
    (by decide)).2

end VimNetranger
